import Mathlib

/-!
Verification development for the episode-title disambiguation module
(guessit, src/guessit/rules/properties/episode_title.py).

The module is an ensemble of five rules operating on a shared collection of
tagged spans ("matches") plus a list of path-segment markers:
TitleToEpisodeTitle, EpisodeTitleFromPosition, AlternativeTitleReplace,
Filepart3EpisodeTitle and Filepart2EpisodeTitle.

The span-extraction/query collaborator (rebulk) and the generic
Base Positional-Title Rule (guessit title.py) are not part of the source
tree being verified; they are modelled here from the behaviour the
specification assigns to them (its section 6 lists the exact query
operations consumed).  Everything else is translated directly from
episode_title.py.

Conventions of the embedding:
- a rule is a total function from the collection state to a new state;
  the when-phase of the source becomes an Option-returning function and
  the then-phase is applied exactly when the when-phase returns some value;
- character offsets are natural numbers over the normalized name, kept in
  the state as a list of characters;
- the match collection is kept as a sequence; where the source relies on
  the document order of an index-0 query the minimum-position element is
  selected explicitly.
-/

/-- A tagged span over the normalized file-name string (rebulk Match).
The source field named end is called stop here because end is a Lean
keyword. -/
structure Match where
  name : String
  value : String
  start : Nat
  stop : Nat
  tags : List String
deriving DecidableEq, Repr

/-- Names attached to a match.  Modelled from the spec: for the plain
matches handled by this module a match carries exactly its one tag. -/
def Match.names (m : Match) : List String := [m.name]

/-- A path-segment marker (rebulk Marker): one hierarchical segment of the
original path. -/
structure Marker where
  name : String
  start : Nat
  stop : Nat
deriving DecidableEq, Repr

/-- The shared mutable state: the normalized input string, the immutable
path markers and the match collection. -/
structure Matches where
  istr : List Char
  markers : List Marker
  entries : List Match
deriving DecidableEq, Repr

/-- Matches with a given tag, in collection order (rebulk named). -/
def Matches.namedIn (ms : List Match) (n : String) : List Match :=
  ms.filter (fun m => m.name == n)

/-- Matches with a given tag, method form. -/
def Matches.named (st : Matches) (n : String) : List Match :=
  Matches.namedIn st.entries n

/-- Nearest preceding match satisfying a predicate (rebulk previous).
Modelled from the spec: among the matches ending before the anchor the
ones ending at the greatest position form the immediately preceding
tagged span group; the predicate is tested there. -/
def Matches.previousIn (ms : List Match) (m : Match) (pred : Match → Bool) : Option Match :=
  let before := ms.filter (fun p => decide (p.stop ≤ m.start))
  (before.filter (fun p => before.all (fun q => decide (q.stop ≤ p.stop)))).find? pred

/-- Nearest preceding match, method form. -/
def Matches.previous (st : Matches) (m : Match) (pred : Match → Bool) : Option Match :=
  Matches.previousIn st.entries m pred

/-- Matches fully inside a half-open range satisfying a predicate
(rebulk range).  Modelled from the spec. -/
def Matches.rangeIn (ms : List Match) (s e : Nat) (pred : Match → Bool) : List Match :=
  ms.filter (fun m => decide (s ≤ m.start) && decide (m.stop ≤ e) && pred m)

/-- Range query, method form. -/
def Matches.range (st : Matches) (s e : Nat) (pred : Match → Bool) : List Match :=
  Matches.rangeIn st.entries s e pred

/-- Strict document-order comparison of two matches. -/
def docBefore (a b : Match) : Bool :=
  decide (a.start < b.start) || (decide (a.start = b.start) && decide (a.stop < b.stop))

/-- First element of a list of matches in document order (rebulk keeps its
collection sorted by position; an index-0 query returns this element). -/
def firstInDoc (l : List Match) : Option Match :=
  l.foldl (fun acc m =>
    match acc with
    | none => some m
    | some b => if docBefore m b then some m else some b) none

/-- Separator characters of the normalized name.  Modelled from the spec:
the exact separator alphabet lives in guessit rules common, outside the
verified source; spans are delimited by punctuation and blanks. -/
def sepChars : List Char := [' ', '.', '-', '_', '/', '\\', '+', ',', '(', ')', '[', ']']

/-- Whether a character is a separator. -/
def isSep (c : Char) : Bool := sepChars.contains c

/-- Substring of the input between two offsets. -/
def sliceChars (cs : List Char) (s e : Nat) : List Char :=
  (cs.drop s).take (e - s)

/-- Formatting applied to hole text (guessit cleanup).  Modelled from the
spec: trims separator characters from both ends; a hole whose text is
separators only formats to the empty string and is rejected. -/
def cleanup (cs : List Char) : List Char :=
  ((cs.dropWhile isSep).reverse.dropWhile isSep).reverse

/-- Whether some match of the list covers the given offset. -/
def coveredAt (ms : List Match) (i : Nat) : Bool :=
  ms.any (fun m => decide (m.start ≤ i) && decide (i < m.stop))

/-- Whether a pair of offsets delimits a maximal uncovered sub-range of
the given range: nonempty, inside the range, uncovered throughout, and
not extendable on either side. -/
def isMaximalHole (ms : List Match) (s e hs he : Nat) : Bool :=
  decide (s ≤ hs) && decide (hs < he) && decide (he ≤ e) &&
    (List.range' hs (he - hs)).all (fun i => !coveredAt ms i) &&
    (decide (hs = s) || coveredAt ms (hs - 1)) &&
    (decide (he = e) || coveredAt ms he)

/-- The maximal uncovered sub-ranges of a range, in document order. -/
def holePairs (ms : List Match) (s e : Nat) : List (Nat × Nat) :=
  (List.range (e + 1)).flatMap (fun hs =>
    (List.range (e + 1)).filterMap (fun he =>
      if isMaximalHole ms s e hs he then some (hs, he) else none))

/-- Unmatched gaps of a range as candidate matches (rebulk holes).
Modelled from the spec: each maximal uncovered sub-range becomes a match
whose value is the formatted underlying text. -/
def Matches.holes (st : Matches) (s e : Nat) : List Match :=
  (holePairs st.entries s e).map (fun p =>
    { name := "", value := String.mk (cleanup (sliceChars st.istr p.1 p.2)),
      start := p.1, stop := p.2, tags := [] })

/-- Skip backward over separator characters. -/
def skipSepsBack (cs : List Char) : Nat → Nat
  | 0 => 0
  | n + 1 => if isSep (cs.getD n 'x') then skipSepsBack cs n else n + 1

/-- Backward chain of matches from a position, where consecutive links are
separated by separator characters only (rebulk chain before).  Modelled
from the spec: the contiguous tagged run ending at the position.  The
first argument is fuel; the starting position bounds the recursion
depth. -/
def chainRun (st : Matches) : Nat → Nat → List Match
  | 0, _ => []
  | fuel + 1, pos =>
    let cur := skipSepsBack st.istr pos
    let ending := st.entries.filter (fun m => decide (m.stop = cur) && decide (m.start < cur))
    match ending with
    | [] => []
    | e :: es =>
      let nextPos := (es.map (fun m => m.start)).foldl Nat.min e.start
      (e :: es) ++ chainRun st fuel nextPos

/-- Nearest match in the backward chain from a position satisfying a
predicate (rebulk chain before with index 0). -/
def Matches.chain_before (st : Matches) (pos : Nat) (pred : Match → Bool) : Option Match :=
  (chainRun st pos pos).find? pred

/-- Retag a match: identical span and value, new name. -/
def renameTo (n : String) (m : Match) : Match :=
  { m with name := n }

/-- Erase each element of the second list from the first, in order. -/
def eraseAll (ms : List Match) (es : List Match) : List Match :=
  es.foldl (fun acc e => acc.erase e) ms

/-- Predicate tested by TitleToEpisodeTitle on the span preceding a title
(source line 33): the preceding match is named episodeNumber. -/
def episodeNumberPred (p : Match) : Bool := p.name == "episodeNumber"

/-- Anchor names shared by EpisodeTitleFromPosition and
AlternativeTitleReplace (source lines 58 and 110). -/
def episodeAnchorNames : List String :=
  ["episodeNumber", "episodeDetails", "episodeCount", "season", "seasonCount", "date", "title"]

/-- Anchor predicate of the two rules: some anchor name occurs among the
names of the preceding match. -/
def episodeAnchorPred (p : Match) : Bool :=
  episodeAnchorNames.any (fun n => p.names.contains n)

/-- Value grouping built by TitleToEpisodeTitle.when (source lines 26-28):
an association list from title value to the titles holding it. -/
def addToGroup : List (String × List Match) → Match → List (String × List Match)
  | [], t => [(t.value, [t])]
  | (k, g) :: rest, t =>
    if k == t.value then (k, g ++ [t]) :: rest else (k, g) :: addToGroup rest t

/-- Grouping of titles by value, as built by the source. -/
def titleGroups (titles : List Match) : List (String × List Match) :=
  titles.foldl addToGroup []

/-- When-phase of TitleToEpisodeTitle (source lines 20-39): with at least
two titles, the titles whose immediately preceding tagged span group
holds an episodeNumber are returned; the value grouping is built exactly
as in the source (and, as in the source, not consulted afterwards). -/
def TitleToEpisodeTitle.when (st : Matches) : Option (List Match) :=
  let titles := st.named "title"
  if titles.length < 2 then none
  else
    let _title_groups := titleGroups titles
    let episode_titles :=
      titles.filter (fun t => (Matches.previousIn st.entries t episodeNumberPred).isSome)
    if episode_titles.isEmpty then none else some episode_titles

/-- When-phase of TitleToEpisodeTitle with the value-grouping computation
removed, for the refinement comparison. -/
def TitleToEpisodeTitle.whenNoGroups (st : Matches) : Option (List Match) :=
  let titles := st.named "title"
  if titles.length < 2 then none
  else
    let episode_titles :=
      titles.filter (fun t => (Matches.previousIn st.entries t episodeNumberPred).isSome)
    if episode_titles.isEmpty then none else some episode_titles

/-- Then-phase of TitleToEpisodeTitle (source lines 41-45): each returned
title is removed, renamed to episodeTitle and appended. -/
def TitleToEpisodeTitle.thenPhase (ms : List Match) (resp : List Match) : List Match :=
  resp.foldl (fun acc et => acc.erase et ++ [renameTo "episodeTitle" et]) ms

/-- The TitleToEpisodeTitle rule as a state transformer. -/
def applyTTET (st : Matches) : Matches :=
  match TitleToEpisodeTitle.when st with
  | none => st
  | some resp => { st with entries := TitleToEpisodeTitle.thenPhase st.entries resp }

/-- The TitleToEpisodeTitle rule without the value grouping. -/
def applyTTETNoGroups (st : Matches) : Matches :=
  match TitleToEpisodeTitle.whenNoGroups st with
  | none => st
  | some resp => { st with entries := TitleToEpisodeTitle.thenPhase st.entries resp }

/-- Hole filter hook of EpisodeTitleFromPosition (source lines 55-65): the
hole is accepted when its nearest preceding match carries an anchor name
or a crc32 match exists anywhere. -/
def EpisodeTitleFromPosition.hole_filter (st : Matches) (hole : Match) : Bool :=
  (Matches.previousIn st.entries hole episodeAnchorPred).isSome
    || !(st.named "crc32").isEmpty

/-- Filepart filter hook of EpisodeTitleFromPosition (source lines 67-71):
only fileparts already holding a title are scanned. -/
def EpisodeTitleFromPosition.filepart_filter (st : Matches) (fp : Marker) : Bool :=
  !(st.range fp.start fp.stop (fun m => m.name == "title")).isEmpty

/-- Ignore hook of EpisodeTitleFromPosition (source lines 73-76):
episodeDetails spans are never absorbed into the new title span.  The
base-rule default is modelled from the spec as ignoring nothing. -/
def EpisodeTitleFromPosition.is_ignored (m : Match) : Bool :=
  m.name == "episodeDetails"

/-- Keep/crop hook of EpisodeTitleFromPosition (source lines 78-81):
an episodeDetails span not preceded by a season span is kept and the
title is not cropped around it.  The base-rule default is modelled from
the spec as keeping the neighboring match and cropping the title. -/
def EpisodeTitleFromPosition.should_keep (st : Matches) (m : Match) : Bool × Bool :=
  if m.name == "episodeDetails"
      && (Matches.previousIn st.entries m (fun p => p.name == "season")).isNone then
    (true, false)
  else
    (true, true)

/-- Holes of a range computed with ignored matches treated as transparent,
so that a candidate title hole may span over them. -/
def holesVisible (st : Matches) (s e : Nat) : List Match :=
  (holePairs (st.entries.filter (fun m => !EpisodeTitleFromPosition.is_ignored m)) s e).map
    (fun p =>
      { name := "", value := String.mk (cleanup (sliceChars st.istr p.1 p.2)),
        start := p.1, stop := p.2, tags := [] })

/-- First acceptable candidate hole of a filepart: nonempty after
formatting and accepted by the hole filter. -/
def candidateHole (st : Matches) (fp : Marker) : Option Match :=
  ((holesVisible st fp.start fp.stop).filter
    (fun h => !h.value.isEmpty && EpisodeTitleFromPosition.hole_filter st h)).head?

/-- Title pieces carved from an accepted hole.  Modelled from the spec:
the hole is cropped against the contained matches whose keep/crop answer
asks for cropping; each remaining sub-range with nonempty formatted text
becomes an episodeTitle match. -/
def cropPieces (st : Matches) (h : Match) : List Match :=
  let croppers := st.entries.filter (fun m =>
    decide (h.start ≤ m.start) && decide (m.stop ≤ h.stop)
      && (EpisodeTitleFromPosition.should_keep st m).snd)
  (holePairs croppers h.start h.stop).filterMap (fun p =>
    let v := cleanup (sliceChars st.istr p.1 p.2)
    if v.isEmpty then none
    else some { name := "episodeTitle", value := String.mk v,
                start := p.1, stop := p.2, tags := [] })

/-- When-phase of the generic positional-title algorithm specialized by
EpisodeTitleFromPosition.  Modelled from the spec: the base rule of
guessit title.py is not under src; per the spec it scans the eligible
fileparts for an acceptable hole and proposes the carved title pieces. -/
def titleBaseWhen (st : Matches) : Option (Match × List Match) :=
  ((st.markers.filter (fun mk => mk.name == "path")).filter
      (fun fp => EpisodeTitleFromPosition.filepart_filter st fp)).findSome?
    (fun fp =>
      match candidateHole st fp with
      | none => none
      | some h =>
        let ps := cropPieces st h
        if ps.isEmpty then none else some (h, ps))

/-- The EpisodeTitleFromPosition rule as a state transformer (source lines
86-89 for the guard; the base behaviour is the modelled positional
algorithm): matches inside the hole whose keep answer is negative are
swallowed; the carved episodeTitle pieces are appended. -/
def applyETFP (st : Matches) : Matches :=
  if !(st.named "episodeTitle").isEmpty then st
  else
    match titleBaseWhen st with
    | none => st
    | some hps =>
      { st with entries :=
          st.entries.filter (fun m =>
            !(decide (hps.1.start ≤ m.start) && decide (m.stop ≤ hps.1.stop))
              || (EpisodeTitleFromPosition.should_keep st m).fst) ++ hps.2 }

/-- When-phase of AlternativeTitleReplace (source lines 99-118). -/
def AlternativeTitleReplace.when (st : Matches) : Option Match :=
  if !(st.named "episodeTitle").isEmpty then none
  else
    match firstInDoc (st.entries.filter (fun m => m.name == "alternativeTitle")) with
    | none => none
    | some alternative_title =>
      match st.chain_before alternative_title.start (fun m => m.tags.contains "title") with
      | none => none
      | some main_title =>
        if (Matches.previousIn st.entries main_title episodeAnchorPred).isSome
            || !(st.named "crc32").isEmpty then
          some alternative_title
        else none

/-- The AlternativeTitleReplace rule as a state transformer (then-phase at
source lines 120-123: remove, rename to episodeTitle, append). -/
def applyATR (st : Matches) : Matches :=
  match AlternativeTitleReplace.when st with
  | none => st
  | some alt => { st with entries := st.entries.erase alt ++ [renameTo "episodeTitle" alt] }

/-- When-phase of Filepart3EpisodeTitle (source lines 138-155): with at
least three path markers, the last one holding an episodeNumber and the
second-to-last a season, the first nonempty hole of the third-to-last is
returned. -/
def Filepart3EpisodeTitle.when (st : Matches) : Option Match :=
  match (st.markers.filter (fun mk => mk.name == "path")).reverse with
  | filename :: directory :: subdirectory :: _ =>
    if !(st.range filename.start filename.stop (fun m => m.name == "episodeNumber")).isEmpty then
      if !(st.range directory.start directory.stop (fun m => m.name == "season")).isEmpty then
        ((st.holes subdirectory.start subdirectory.stop).filter
          (fun h => !h.value.isEmpty)).head?
      else none
    else none
  | _ => none

/-- The Filepart3EpisodeTitle rule as a state transformer (consequence
AppendMatch with name title, source line 136). -/
def applyF3 (st : Matches) : Matches :=
  match Filepart3EpisodeTitle.when st with
  | none => st
  | some hole => { st with entries := st.entries ++ [renameTo "title" hole] }

/-- When-phase of Filepart2EpisodeTitle (source lines 170-185): with at
least two path markers, the last one holding an episodeNumber and the
second-to-last a season, the first nonempty hole of the second-to-last
itself is returned. -/
def Filepart2EpisodeTitle.when (st : Matches) : Option Match :=
  match (st.markers.filter (fun mk => mk.name == "path")).reverse with
  | filename :: directory :: _ =>
    if !(st.range filename.start filename.stop (fun m => m.name == "episodeNumber")).isEmpty then
      if !(st.range directory.start directory.stop (fun m => m.name == "season")).isEmpty then
        ((st.holes directory.start directory.stop).filter
          (fun h => !h.value.isEmpty)).head?
      else none
    else none
  | _ => none

/-- The Filepart2EpisodeTitle rule as a state transformer (consequence
AppendMatch with name title, source line 168). -/
def applyF2 (st : Matches) : Matches :=
  match Filepart2EpisodeTitle.when st with
  | none => st
  | some hole => { st with entries := st.entries ++ [renameTo "title" hole] }

/-- The whole ensemble, in the dependency-chain order of the source
(TitleToEpisodeTitle, then EpisodeTitleFromPosition, then
AlternativeTitleReplace); the two Filepart rules carry no dependency edge
and are placed after the chain in their registration order. -/
def ensemble (st : Matches) : Matches :=
  applyF2 (applyF3 (applyATR (applyETFP (applyTTET st))))

/-! ### Specification-side predicates used by the claim statements -/

/-- Specification-side predicate for claim C1: some span among those
ending at the greatest position not beyond the start of the title (its
immediately preceding tagged span group) is tagged episodeNumber. -/
def followsEpisodeNumberB (st : Matches) (t : Match) : Bool :=
  st.entries.any (fun p =>
    (p.name == "episodeNumber") && decide (p.stop ≤ t.start) &&
      st.entries.all (fun q => !decide (q.stop ≤ t.start) || decide (q.stop ≤ p.stop)))

/-- Title spans of the collection whose immediately preceding tagged span
is an episodeNumber, in the claim C1 formulation. -/
def episodeTitleTargets (st : Matches) : List Match :=
  (st.named "title").filter (fun t => followsEpisodeNumberB st t)

/-- Specification-side predicate for claims C3 and C4: the immediately
preceding tagged span group of the match holds a span carrying one of the
episode anchor names. -/
def precededByAnchorB (st : Matches) (m : Match) : Bool :=
  st.entries.any (fun p =>
    episodeAnchorNames.contains p.name && decide (p.stop ≤ m.start) &&
      st.entries.all (fun q => !decide (q.stop ≤ m.start) || decide (q.stop ≤ p.stop)))

/-- The hole acceptance condition exactly as claim C4 words it, with the
preceding-match search restricted to the path segment holding the hole:
some path segment contains the hole, and among the matches lying inside
that segment the nearest one preceding the hole carries an anchor name;
or a crc32 span exists anywhere. -/
def sameSegmentHoleFilterB (st : Matches) (hole : Match) : Bool :=
  (st.markers.filter (fun mk => mk.name == "path")).any (fun seg =>
    decide (seg.start ≤ hole.start) && decide (hole.stop ≤ seg.stop) &&
      st.entries.any (fun p =>
        decide (seg.start ≤ p.start) && decide (p.stop ≤ seg.stop) &&
          episodeAnchorNames.contains p.name && decide (p.stop ≤ hole.start) &&
          st.entries.all (fun q =>
            !(decide (seg.start ≤ q.start) && decide (q.stop ≤ seg.stop)
                && decide (q.stop ≤ hole.start))
              || decide (q.stop ≤ p.stop))))
    || st.entries.any (fun c => c.name == "crc32")

/-- Applicability condition of Filepart3EpisodeTitle as claim C5 words it:
at least three path markers, an episodeNumber inside the last, a season
inside the second-to-last, and a hole of the third-to-last that is
nonempty after formatting. -/
def filepart3ApplicableB (st : Matches) : Bool :=
  match (st.markers.filter (fun mk => mk.name == "path")).reverse with
  | filename :: directory :: subdirectory :: _ =>
    !(st.range filename.start filename.stop (fun m => m.name == "episodeNumber")).isEmpty &&
      !(st.range directory.start directory.stop (fun m => m.name == "season")).isEmpty &&
      (st.holes subdirectory.start subdirectory.stop).any (fun h => !h.value.isEmpty)
  | _ => false

/-- Applicability condition of Filepart2EpisodeTitle as claim C6 words it:
at least two path markers, an episodeNumber inside the last, a season
inside the second-to-last, and a hole of the second-to-last itself that is
nonempty after formatting. -/
def filepart2ApplicableB (st : Matches) : Bool :=
  match (st.markers.filter (fun mk => mk.name == "path")).reverse with
  | filename :: directory :: _ =>
    !(st.range filename.start filename.stop (fun m => m.name == "episodeNumber")).isEmpty &&
      !(st.range directory.start directory.stop (fun m => m.name == "season")).isEmpty &&
      (st.holes directory.start directory.stop).any (fun h => !h.value.isEmpty)
  | _ => false

/-! ### Concrete states used by witnesses and counterexamples -/

/-- Episode number before the first title of the C1 witness state. -/
def c1ep : Match := { name := "episodeNumber", value := "3", start := 0, stop := 2, tags := [] }

/-- First title of the C1 witness state, right after the episode number. -/
def c1ta : Match := { name := "title", value := "A", start := 3, stop := 4, tags := [] }

/-- Second title of the C1 witness state, preceded by the first title. -/
def c1tb : Match := { name := "title", value := "B", start := 5, stop := 6, tags := [] }

/-- C1 witness state: two titles, only the first follows an episode
number. -/
def c1st : Matches := { istr := [], markers := [], entries := [c1ep, c1ta, c1tb] }

/-- First episode number of the C2 counterexample state. -/
def c2ep1 : Match := { name := "episodeNumber", value := "1", start := 0, stop := 1, tags := [] }

/-- First title of the C2 counterexample state. -/
def c2ta : Match := { name := "title", value := "A", start := 2, stop := 3, tags := [] }

/-- Second episode number of the C2 counterexample state. -/
def c2ep2 : Match := { name := "episodeNumber", value := "2", start := 4, stop := 5, tags := [] }

/-- Second title of the C2 counterexample state. -/
def c2tb : Match := { name := "title", value := "B", start := 6, stop := 7, tags := [] }

/-- C2 counterexample state: both titles follow an episode number, so
TitleToEpisodeTitle retags both in a single run. -/
def c2st : Matches := { istr := [], markers := [], entries := [c2ep1, c2ta, c2ep2, c2tb] }

/-- C2 witness state for the amended guards: an episodeTitle exists. -/
def c2g : Matches :=
  { istr := [], markers := [],
    entries := [{ name := "episodeTitle", value := "E", start := 0, stop := 1, tags := [] }] }

/-- Input characters of the C3 witness state. -/
def c3istr : List Char := ['1', '2', ' ', 'S', 'h', ' ', 'A', 'l']

/-- Episode number of the C3 witness state. -/
def c3ep : Match := { name := "episodeNumber", value := "12", start := 0, stop := 2, tags := [] }

/-- Main title of the C3 witness state, carrying the auxiliary title
marker tag. -/
def c3main : Match := { name := "title", value := "Sh", start := 3, stop := 5, tags := ["title"] }

/-- Alternative title of the C3 witness state. -/
def c3alt : Match :=
  { name := "alternativeTitle", value := "Al", start := 6, stop := 8, tags := [] }

/-- C3 witness state: the alternative title chains back to a main title
that follows an episode number. -/
def c3st : Matches := { istr := c3istr, markers := [], entries := [c3ep, c3main, c3alt] }

/-- Episode number of the C4 counterexample state, lying in the first
path segment. -/
def c4ep : Match := { name := "episodeNumber", value := "1", start := 0, stop := 3, tags := [] }

/-- First path segment of the C4 counterexample state. -/
def c4seg1 : Marker := { name := "path", start := 0, stop := 3 }

/-- Second path segment of the C4 counterexample state. -/
def c4seg2 : Marker := { name := "path", start := 4, stop := 9 }

/-- C4 counterexample state: the only anchor lives in the first segment. -/
def c4st : Matches := { istr := [], markers := [c4seg1, c4seg2], entries := [c4ep] }

/-- C4 counterexample hole: it lies in the second segment, whose inside
holds no preceding match at all. -/
def c4hole : Match := { name := "", value := "x", start := 5, stop := 8, tags := [] }

/-- Input characters of the C5 witness state. -/
def c5istr : List Char := ['A', 'B', '/', 's', '1', '/', 'e', '2']

/-- Third-to-last path marker of the C5 witness state. -/
def c5sub : Marker := { name := "path", start := 0, stop := 2 }

/-- Second-to-last path marker of the C5 witness state. -/
def c5dir : Marker := { name := "path", start := 3, stop := 5 }

/-- Last path marker of the C5 witness state. -/
def c5file : Marker := { name := "path", start := 6, stop := 8 }

/-- Season match of the C5 witness state, inside the directory marker. -/
def c5season : Match := { name := "season", value := "1", start := 3, stop := 5, tags := [] }

/-- Episode number of the C5 witness state, inside the filename marker. -/
def c5ep : Match := { name := "episodeNumber", value := "2", start := 6, stop := 8, tags := [] }

/-- C5 witness state: three path markers with the series name hole in the
third-to-last one. -/
def c5st : Matches :=
  { istr := c5istr, markers := [c5sub, c5dir, c5file], entries := [c5season, c5ep] }

/-- Input characters of the C6 witness state. -/
def c6istr : List Char := ['S', 'h', 'o', 'w', ' ', 's', '1', '/', 'e', '2']

/-- Second-to-last path marker of the C6 witness state. -/
def c6dir : Marker := { name := "path", start := 0, stop := 7 }

/-- Last path marker of the C6 witness state. -/
def c6file : Marker := { name := "path", start := 8, stop := 10 }

/-- Season match of the C6 witness state, inside the directory marker. -/
def c6season : Match := { name := "season", value := "1", start := 5, stop := 7, tags := [] }

/-- Episode number of the C6 witness state, inside the filename marker. -/
def c6ep : Match := { name := "episodeNumber", value := "2", start := 8, stop := 10, tags := [] }

/-- C6 witness state: two path markers, the series name sharing the
directory segment with the season tag. -/
def c6st : Matches :=
  { istr := c6istr, markers := [c6dir, c6file], entries := [c6season, c6ep] }

/-- Input characters of the C7 counterexample state. -/
def c7istr : List Char := ['A', 'B', 'X', 'C', 'D', '/', 's', '1', '/', 'e', '2', 'x']

/-- Third-to-last path marker of the C7 counterexample state. -/
def c7sub : Marker := { name := "path", start := 0, stop := 5 }

/-- Second-to-last path marker of the C7 counterexample state. -/
def c7dir : Marker := { name := "path", start := 6, stop := 8 }

/-- Last path marker of the C7 counterexample state. -/
def c7file : Marker := { name := "path", start := 9, stop := 12 }

/-- Year match splitting the subdirectory of the C7 counterexample state
into two nonempty holes. -/
def c7year : Match := { name := "year", value := "X", start := 2, stop := 3, tags := [] }

/-- Season match of the C7 counterexample state. -/
def c7season : Match := { name := "season", value := "1", start := 6, stop := 8, tags := [] }

/-- Episode number of the C7 counterexample state. -/
def c7ep : Match := { name := "episodeNumber", value := "2", start := 9, stop := 11, tags := [] }

/-- C7 counterexample state: the subdirectory segment holds two nonempty
holes, so Filepart3EpisodeTitle fires again on its own output. -/
def c7st : Matches :=
  { istr := c7istr, markers := [c7sub, c7dir, c7file], entries := [c7year, c7season, c7ep] }

/-- EpisodeDetails match of the C9 witness state. -/
def c9m : Match := { name := "episodeDetails", value := "OVA", start := 0, stop := 2, tags := [] }

/-- C9 witness state: a single episodeDetails span with no season before
it. -/
def c9st : Matches := { istr := [], markers := [], entries := [c9m] }

/-! ### Helper lemmas about the query surface -/

theorem previousIn_isSome_iff (ms : List Match) (m : Match) (pred : Match → Bool) :
    (Matches.previousIn ms m pred).isSome = true ↔
      ∃ p, p ∈ ms ∧ pred p = true ∧ p.stop ≤ m.start ∧
        ∀ q ∈ ms, q.stop ≤ m.start → q.stop ≤ p.stop := by
  unfold Matches.previousIn
  rw [List.find?_isSome]
  constructor
  · rintro ⟨x, hx, hpred⟩
    rw [List.mem_filter] at hx
    obtain ⟨hx1, hx2⟩ := hx
    rw [List.mem_filter] at hx1
    obtain ⟨hxm, hxle⟩ := hx1
    rw [List.all_eq_true] at hx2
    refine ⟨x, hxm, hpred, by exact_mod_cast decide_eq_true_iff.mp hxle, ?_⟩
    intro q hq hqle
    have : q ∈ ms.filter (fun p => decide (p.stop ≤ m.start)) := by
      rw [List.mem_filter]
      exact ⟨hq, decide_eq_true_iff.mpr hqle⟩
    exact decide_eq_true_iff.mp (hx2 q this)
  · rintro ⟨p, hp, hpred, hple, hmax⟩
    refine ⟨p, ?_, hpred⟩
    rw [List.mem_filter]
    constructor
    · rw [List.mem_filter]
      exact ⟨hp, decide_eq_true_iff.mpr hple⟩
    · rw [List.all_eq_true]
      intro q hq
      rw [List.mem_filter] at hq
      exact decide_eq_true_iff.mpr (hmax q hq.1 (decide_eq_true_iff.mp hq.2))

theorem firstInDoc_go_mem (l : List Match) (b : Match) (x : Match)
    (h : l.foldl (fun acc m =>
        match acc with
        | none => some m
        | some b => if docBefore m b then some m else some b) (some b) = some x) :
    x = b ∨ x ∈ l := by
  induction l generalizing b with
  | nil => simp at h; exact Or.inl h.symm
  | cons a t ih =>
    simp only [List.foldl_cons] at h
    by_cases hd : docBefore a b
    · rw [if_pos hd] at h
      rcases ih a h with h1 | h2
      · exact Or.inr (h1 ▸ List.mem_cons_self a t)
      · exact Or.inr (List.mem_cons_of_mem a h2)
    · rw [if_neg hd] at h
      rcases ih b h with h1 | h2
      · exact Or.inl h1
      · exact Or.inr (List.mem_cons_of_mem a h2)

theorem firstInDoc_mem (l : List Match) (x : Match) (h : firstInDoc l = some x) : x ∈ l := by
  unfold firstInDoc at h
  cases l with
  | nil => simp at h
  | cons a t =>
    simp only [List.foldl_cons] at h
    rcases firstInDoc_go_mem t a x h with h1 | h2
    · exact h1 ▸ List.mem_cons_self a t
    · exact List.mem_cons_of_mem a h2

theorem eraseAll_sublist (es ms : List Match) : List.Sublist (eraseAll ms es) ms := by
  induction es generalizing ms with
  | nil => exact List.Sublist.refl ms
  | cons e t ih =>
    unfold eraseAll
    simp only [List.foldl_cons]
    exact List.Sublist.trans (ih (ms.erase e)) (List.erase_sublist e ms)

theorem eraseAll_count (es ms : List Match) (x : Match) :
    (eraseAll ms es).count x = ms.count x - es.count x := by
  induction es generalizing ms with
  | nil => simp [eraseAll]
  | cons e t ih =>
    unfold eraseAll
    simp only [List.foldl_cons]
    have h1 : (eraseAll (ms.erase e) t).count x = (ms.erase e).count x - t.count x := ih _
    unfold eraseAll at h1
    rw [h1, List.count_erase, List.count_cons]
    by_cases he : e = x
    · simp [he, Nat.sub_sub]
      omega
    · have : (e == x) = false := by simp [he]
      simp [this]

theorem erase_append_singleton (l : List Match) (x a : Match) (h : a ≠ x) :
    (l ++ [x]).erase a = l.erase a ++ [x] := by
  by_cases hm : a ∈ l
  · exact List.erase_append_left [x] hm
  · rw [List.erase_append_right [x] hm, List.erase_of_not_mem hm]
    have : ([x].erase a) = [x] := by
      apply List.erase_of_not_mem
      simpa using h
    rw [this]

theorem eraseAll_append_singleton (es l : List Match) (x : Match) (h : ∀ a ∈ es, a ≠ x) :
    eraseAll (l ++ [x]) es = eraseAll l es ++ [x] := by
  induction es generalizing l with
  | nil => simp [eraseAll]
  | cons e t ih =>
    unfold eraseAll
    simp only [List.foldl_cons]
    rw [erase_append_singleton l x e (h e (List.mem_cons_self e t))]
    exact ih (l.erase e) (fun a ha => h a (List.mem_cons_of_mem e ha))

theorem thenPhase_eq (resp ms : List Match) (h : ∀ e ∈ resp, e.name = "title") :
    TitleToEpisodeTitle.thenPhase ms resp =
      eraseAll ms resp ++ resp.map (renameTo "episodeTitle") := by
  induction resp generalizing ms with
  | nil => simp [TitleToEpisodeTitle.thenPhase, eraseAll]
  | cons e t ih =>
    unfold TitleToEpisodeTitle.thenPhase
    simp only [List.foldl_cons]
    have hrec := ih (ms.erase e ++ [renameTo "episodeTitle" e])
      (fun a ha => h a (List.mem_cons_of_mem e ha))
    unfold TitleToEpisodeTitle.thenPhase at hrec
    rw [hrec]
    have hne : ∀ a ∈ t, a ≠ renameTo "episodeTitle" e := by
      intro a ha hcontra
      have h1 : a.name = "title" := h a (List.mem_cons_of_mem e ha)
      rw [hcontra] at h1
      simp [renameTo] at h1
    rw [eraseAll_append_singleton t (ms.erase e) (renameTo "episodeTitle" e) hne]
    simp [eraseAll]

theorem previous_episodeNumber_eq_followsB (st : Matches) (t : Match) :
    (Matches.previousIn st.entries t episodeNumberPred).isSome = followsEpisodeNumberB st t := by
  rw [Bool.eq_iff_iff, previousIn_isSome_iff]
  unfold followsEpisodeNumberB
  rw [List.any_eq_true]
  constructor
  · rintro ⟨p, hp, hpred, hple, hmax⟩
    refine ⟨p, hp, ?_⟩
    simp only [Bool.and_eq_true, episodeNumberPred] at hpred ⊢
    refine ⟨⟨hpred, by simpa using hple⟩, ?_⟩
    rw [List.all_eq_true]
    intro q hq
    by_cases hle : q.stop ≤ t.start
    · simp [hle, hmax q hq hle]
    · simp [hle]
  · rintro ⟨p, hp, hcond⟩
    simp only [Bool.and_eq_true, List.all_eq_true] at hcond
    obtain ⟨⟨hpred, hple⟩, hall⟩ := hcond
    refine ⟨p, hp, by simpa [episodeNumberPred] using hpred, by simpa using hple, ?_⟩
    intro q hq hqle
    have := hall q hq
    simp [hqle] at this
    exact this

theorem named_all_title (st : Matches) (t : Match) (h : t ∈ st.named "title") :
    t.name = "title" ∧ t ∈ st.entries := by
  unfold Matches.named Matches.namedIn at h
  rw [List.mem_filter] at h
  exact ⟨by simpa using h.2, h.1⟩

/-! ### Claim C1 -/

/-- C1: with fewer than two title spans TitleToEpisodeTitle is the
identity; with at least two it removes exactly the title spans whose
immediately preceding tagged span is an episodeNumber and appends them
back retagged episodeTitle with span and value preserved, leaving every
other title span untouched. -/
theorem titleToEpisodeTitle_correct (st : Matches) :
    ((st.named "title").length < 2 → applyTTET st = st) ∧
    (2 ≤ (st.named "title").length →
      applyTTET st = { st with entries :=
        (eraseAll st.entries (episodeTitleTargets st) ++
          (episodeTitleTargets st).map (renameTo "episodeTitle")) }) := by
  have hfe : ((st.named "title").filter
        (fun t => (Matches.previousIn st.entries t episodeNumberPred).isSome)) =
      episodeTitleTargets st :=
    List.filter_congr (fun t _ => previous_episodeNumber_eq_followsB st t)
  constructor
  · intro h
    unfold applyTTET TitleToEpisodeTitle.when
    simp only [if_pos h]
  · intro h
    have hnot : ¬((st.named "title").length < 2) := by omega
    unfold applyTTET TitleToEpisodeTitle.when
    simp only [if_neg hnot]
    rw [hfe]
    by_cases he : (episodeTitleTargets st).isEmpty
    · simp only [he, if_pos]
      rw [List.isEmpty_iff] at he
      simp [he, eraseAll]
    · simp only [he, Bool.false_eq_true, if_neg, not_false_iff]
      have halltitle : ∀ e ∈ episodeTitleTargets st, e.name = "title" := by
        intro e hee
        unfold episodeTitleTargets at hee
        rw [List.mem_filter] at hee
        exact (named_all_title st e hee.1).1
      rw [thenPhase_eq _ _ halltitle]

/-- C1 witness: on the concrete two-title state only the title following
the episode number is retagged. -/
theorem titleToEpisodeTitle_correct_witness :
    2 ≤ (c1st.named "title").length ∧
      applyTTET c1st = { c1st with entries :=
        (eraseAll c1st.entries (episodeTitleTargets c1st) ++
          (episodeTitleTargets c1st).map (renameTo "episodeTitle")) } :=
  ⟨by decide, (titleToEpisodeTitle_correct c1st).2 (by decide)⟩

/-! ### Claim C10 -/

/-- C10: TitleToEpisodeTitle is observationally equivalent to the same
rule with the value-grouping computation removed; the grouping is built
and never consulted, so which titles are retagged depends only on each
title span relation to a preceding episodeNumber match. -/
theorem titleToEpisodeTitle_groups_independent :
    TitleToEpisodeTitle.when = TitleToEpisodeTitle.whenNoGroups ∧
      applyTTET = applyTTETNoGroups :=
  ⟨rfl, rfl⟩

/-! ### Guard lemmas shared by several claims -/

theorem applyETFP_of_episodeTitle (st : Matches) (h : st.named "episodeTitle" ≠ []) :
    applyETFP st = st := by
  have hb : (st.named "episodeTitle").isEmpty = false := by
    rw [← Bool.not_eq_true, List.isEmpty_iff]
    exact h
  unfold applyETFP
  simp [hb]

theorem applyATR_of_episodeTitle (st : Matches) (h : st.named "episodeTitle" ≠ []) :
    applyATR st = st := by
  have hb : (st.named "episodeTitle").isEmpty = false := by
    rw [← Bool.not_eq_true, List.isEmpty_iff]
    exact h
  unfold applyATR AlternativeTitleReplace.when
  simp [hb]

/-! ### Claim C2 -/

/-- C2 counterexample: a collection holding no episodeTitle on which the
whole ensemble produces two matches tagged episodeTitle, because
TitleToEpisodeTitle checks for no existing episodeTitle and retags both
titles at once. -/
theorem ensemble_two_episodeTitles :
    c2st.named "episodeTitle" = [] ∧
      2 ≤ ((ensemble c2st).named "episodeTitle").length := by
  decide

/-- C2 amended: of the episodeTitle-producing rules only
EpisodeTitleFromPosition and AlternativeTitleReplace check for an
existing episodeTitle span; each of them produces none when one already
exists. -/
theorem episodeTitle_guards (st : Matches) (h : st.named "episodeTitle" ≠ []) :
    applyETFP st = st ∧ applyATR st = st :=
  ⟨applyETFP_of_episodeTitle st h, applyATR_of_episodeTitle st h⟩

/-- C2 amended witness: a concrete state holding an episodeTitle is left
unchanged by both guarded rules. -/
theorem episodeTitle_guards_witness :
    applyETFP c2g = c2g ∧ applyATR c2g = c2g :=
  episodeTitle_guards c2g (by decide)

theorem episodeAnchorPred_eq_contains (p : Match) :
    episodeAnchorPred p = episodeAnchorNames.contains p.name := by
  unfold episodeAnchorPred Match.names
  rw [Bool.eq_iff_iff, List.any_eq_true]
  constructor
  · rintro ⟨n, hn, hc⟩
    simp only [List.contains_cons, List.contains_nil, Bool.or_false, beq_iff_eq] at hc
    rw [hc] at hn
    exact List.elem_eq_true_of_mem hn
  · intro hc
    refine ⟨p.name, ?_, by simp⟩
    exact List.mem_of_elem_eq_true hc

theorem not_isEmpty_iff_ne_nil (l : List Match) : (!l.isEmpty) = true ↔ l ≠ [] := by
  simp [List.isEmpty_iff]

theorem previous_anchor_eq_precededB (st : Matches) (m : Match) :
    (Matches.previousIn st.entries m episodeAnchorPred).isSome = precededByAnchorB st m := by
  rw [Bool.eq_iff_iff, previousIn_isSome_iff]
  unfold precededByAnchorB
  rw [List.any_eq_true]
  constructor
  · rintro ⟨p, hp, hpred, hple, hmax⟩
    refine ⟨p, hp, ?_⟩
    simp only [Bool.and_eq_true]
    rw [episodeAnchorPred_eq_contains] at hpred
    refine ⟨⟨hpred, by simpa using hple⟩, ?_⟩
    rw [List.all_eq_true]
    intro q hq
    by_cases hle : q.stop ≤ m.start
    · simp [hle, hmax q hq hle]
    · simp [hle]
  · rintro ⟨p, hp, hcond⟩
    simp only [Bool.and_eq_true, List.all_eq_true] at hcond
    obtain ⟨⟨hpred, hple⟩, hall⟩ := hcond
    refine ⟨p, hp, ?_, by simpa using hple, ?_⟩
    · rw [episodeAnchorPred_eq_contains]
      exact hpred
    · intro q hq hqle
      have := hall q hq
      simp [hqle] at this
      exact this

/-! ### Claim C4 -/

/-- C4 counterexample: the hole filter accepts this hole through an
anchor lying in a different path segment, while the claim condition with
its same-path-segment restriction rejects it. -/
theorem holeFilter_segment_counterexample :
    EpisodeTitleFromPosition.hole_filter c4st c4hole = true ∧
      sameSegmentHoleFilterB c4st c4hole = false := by
  decide

/-- C4 amended: a candidate hole is accepted by the hole filter exactly
when its nearest preceding match anywhere in the collection carries one
of the episode anchor names, or a crc32 span exists anywhere; the search
for the preceding match is not restricted to the path segment of the
hole. -/
theorem holeFilter_correct (st : Matches) (hole : Match) :
    EpisodeTitleFromPosition.hole_filter st hole = true ↔
      (precededByAnchorB st hole = true ∨ st.named "crc32" ≠ []) := by
  unfold EpisodeTitleFromPosition.hole_filter
  rw [Bool.or_eq_true, previous_anchor_eq_precededB]
  exact or_congr Iff.rfl (not_isEmpty_iff_ne_nil _)

/-! ### Claim C3 -/

/-- C3: AlternativeTitleReplace is the identity when an episodeTitle
exists or no alternativeTitle exists; otherwise it retags the first
alternativeTitle span (document order) to episodeTitle exactly when a
main-title anchor is found by chaining backward from its start through a
contiguous tagged run and that anchor is immediately preceded by an
episode-context anchor or a crc32 span exists anywhere. -/
theorem alternativeTitleReplace_correct (st : Matches) :
    (st.named "episodeTitle" ≠ [] → applyATR st = st) ∧
    (st.named "episodeTitle" = [] →
      firstInDoc (st.entries.filter (fun m => m.name == "alternativeTitle")) = none →
      applyATR st = st) ∧
    (∀ alt, st.named "episodeTitle" = [] →
      firstInDoc (st.entries.filter (fun m => m.name == "alternativeTitle")) = some alt →
      ((∃ mt, st.chain_before alt.start (fun m => m.tags.contains "title") = some mt ∧
          (precededByAnchorB st mt = true ∨ st.named "crc32" ≠ [])) →
        applyATR st =
          { st with entries := (st.entries.erase alt ++ [renameTo "episodeTitle" alt]) }) ∧
      (¬(∃ mt, st.chain_before alt.start (fun m => m.tags.contains "title") = some mt ∧
          (precededByAnchorB st mt = true ∨ st.named "crc32" ≠ [])) →
        applyATR st = st)) := by
  refine ⟨applyATR_of_episodeTitle st, ?_, ?_⟩
  · intro hg hfd
    have hb : (st.named "episodeTitle").isEmpty = true := List.isEmpty_iff.mpr hg
    have hwhen : AlternativeTitleReplace.when st = none := by
      unfold AlternativeTitleReplace.when
      rw [hfd, hb]
      simp
    unfold applyATR
    rw [hwhen]
  · intro alt hg hfd
    have hb : (st.named "episodeTitle").isEmpty = true := List.isEmpty_iff.mpr hg
    constructor
    · rintro ⟨mt, hmt, hP⟩
      have hcond : ((Matches.previousIn st.entries mt episodeAnchorPred).isSome
          || !(st.named "crc32").isEmpty) = true := by
        rw [Bool.or_eq_true, previous_anchor_eq_precededB]
        rcases hP with h1 | h2
        · exact Or.inl h1
        · exact Or.inr ((not_isEmpty_iff_ne_nil _).mpr h2)
      have hwhen : AlternativeTitleReplace.when st = some alt := by
        unfold AlternativeTitleReplace.when
        rw [hb]
        simp only [Bool.not_true, Bool.false_eq_true, if_false, hfd]
        rw [hmt]
        simp only [hcond, if_true]
      unfold applyATR
      rw [hwhen]
    · intro hnot
      cases hcb : st.chain_before alt.start (fun m => m.tags.contains "title") with
      | none =>
        have hwhen : AlternativeTitleReplace.when st = none := by
          unfold AlternativeTitleReplace.when
          rw [hb]
          simp only [Bool.not_true, Bool.false_eq_true, if_false, hfd]
          rw [hcb]
        unfold applyATR
        rw [hwhen]
      | some mt =>
        have hcond : ((Matches.previousIn st.entries mt episodeAnchorPred).isSome
            || !(st.named "crc32").isEmpty) = false := by
          by_contra hcontra
          rw [← Bool.not_eq_true] at hcontra
          push_neg at hcontra
          rw [Bool.or_eq_true, previous_anchor_eq_precededB] at hcontra
          apply hnot
          refine ⟨mt, hcb, ?_⟩
          rcases hcontra with h1 | h2
          · exact Or.inl h1
          · exact Or.inr ((not_isEmpty_iff_ne_nil _).mp h2)
        have hwhen : AlternativeTitleReplace.when st = none := by
          unfold AlternativeTitleReplace.when
          rw [hb]
          simp only [Bool.not_true, Bool.false_eq_true, if_false, hfd]
          rw [hcb]
          simp only [hcond, Bool.false_eq_true, if_false]
        unfold applyATR
        rw [hwhen]

/-- C3 witness: on the concrete state the alternative title chained to a
main title following an episode number is retagged to episodeTitle. -/
theorem alternativeTitleReplace_correct_witness :
    applyATR c3st =
      { c3st with entries := (c3st.entries.erase c3alt ++ [renameTo "episodeTitle" c3alt]) } :=
  ((alternativeTitleReplace_correct c3st).2.2 c3alt (by decide) (by decide)).1
    ⟨c3main, by decide, Or.inl (by decide)⟩

/-! ### Claims C5 and C6 -/

theorem head?_filter_of_any (l : List Match) (p : Match → Bool) (h : l.any p = true) :
    ∃ x, (l.filter p).head? = some x := by
  cases hf : l.filter p with
  | nil =>
    rw [List.any_eq_true] at h
    obtain ⟨a, ha, hpa⟩ := h
    have hmem : a ∈ l.filter p := List.mem_filter.mpr ⟨ha, hpa⟩
    rw [hf] at hmem
    cases hmem
  | cons a t => exact ⟨a, rfl⟩

theorem head?_filter_of_not_any (l : List Match) (p : Match → Bool) (h : l.any p = false) :
    (l.filter p).head? = none := by
  have hnil : l.filter p = [] := by
    rw [List.filter_eq_nil_iff]
    intro a ha hpa
    rw [List.any_eq_false] at h
    exact h a ha hpa
  rw [hnil]
  rfl

theorem F3_fires (st : Matches) (f d sd : Marker) (rest : List Marker)
    (hrev : (st.markers.filter (fun mk => mk.name == "path")).reverse =
      f :: d :: sd :: rest)
    (happ : filepart3ApplicableB st = true) :
    ∃ h, ((st.holes sd.start sd.stop).filter (fun x => !x.value.isEmpty)).head? = some h ∧
      applyF3 st = { st with entries := (st.entries ++ [renameTo "title" h]) } := by
  unfold filepart3ApplicableB at happ
  rw [hrev] at happ
  simp only [Bool.and_eq_true] at happ
  obtain ⟨⟨hep, hse⟩, hany⟩ := happ
  obtain ⟨h0, hh0⟩ := head?_filter_of_any _ _ hany
  refine ⟨h0, hh0, ?_⟩
  have hwhen : Filepart3EpisodeTitle.when st = some h0 := by
    unfold Filepart3EpisodeTitle.when
    rw [hrev]
    simp only [hep, hse, if_true]
    exact hh0
  unfold applyF3
  rw [hwhen]

theorem F3_when_none (st : Matches) (happ : filepart3ApplicableB st = false) :
    Filepart3EpisodeTitle.when st = none := by
  unfold filepart3ApplicableB at happ
  unfold Filepart3EpisodeTitle.when
  rcases hrev : (st.markers.filter (fun mk => mk.name == "path")).reverse with
    _ | ⟨f, _ | ⟨d, _ | ⟨sd, rest⟩⟩⟩
  · rw [hrev]
  · rw [hrev]
  · rw [hrev]
  · rw [hrev] at happ ⊢
    simp only [Bool.and_eq_false_iff] at happ
    rcases happ with (hep | hse) | hany
    · simp [hep]
    · simp [hse]
    · have hh := head?_filter_of_not_any _ _ hany
      by_cases hep : (!(st.range f.start f.stop (fun m => m.name == "episodeNumber")).isEmpty) = true
      · by_cases hse : (!(st.range d.start d.stop (fun m => m.name == "season")).isEmpty) = true
        · simp only [hep, hse, if_true]
          exact hh
        · simp [hse]
      · simp [hep]

/-- C5: Filepart3EpisodeTitle appends a new title match exactly when at
least three path markers exist, the last holds an episodeNumber, the
second-to-last holds a season, and the third-to-last holds a hole that is
nonempty after formatting; the appended match is the first such hole,
retagged title; otherwise the collection is unchanged. -/
theorem filepart3_correct (st : Matches) :
    (filepart3ApplicableB st = false → applyF3 st = st) ∧
    (filepart3ApplicableB st = true → applyF3 st ≠ st) ∧
    (∀ filename directory subdirectory rest,
      (st.markers.filter (fun mk => mk.name == "path")).reverse =
        filename :: directory :: subdirectory :: rest →
      filepart3ApplicableB st = true →
      ∃ h, ((st.holes subdirectory.start subdirectory.stop).filter
          (fun x => !x.value.isEmpty)).head? = some h ∧
        applyF3 st = { st with entries := (st.entries ++ [renameTo "title" h]) }) := by
  refine ⟨?_, ?_, ?_⟩
  · intro happ
    unfold applyF3
    rw [F3_when_none st happ]
  · intro happ
    rcases hrev : (st.markers.filter (fun mk => mk.name == "path")).reverse with
      _ | ⟨f, _ | ⟨d, _ | ⟨sd, rest⟩⟩⟩
    · unfold filepart3ApplicableB at happ
      rw [hrev] at happ
      simp at happ
    · unfold filepart3ApplicableB at happ
      rw [hrev] at happ
      simp at happ
    · unfold filepart3ApplicableB at happ
      rw [hrev] at happ
      simp at happ
    · obtain ⟨h0, hh0, happly⟩ := F3_fires st f d sd rest hrev happ
      rw [happly]
      intro heq
      have hent := congrArg Matches.entries heq
      simp at hent
  · intro f d sd rest hrev happ
    exact F3_fires st f d sd rest hrev happ

/-- C5 witness: on the concrete three-marker state the series-name hole
of the third-to-last marker is appended as a title. -/
theorem filepart3_correct_witness :
    ∃ h, ((c5st.holes c5sub.start c5sub.stop).filter (fun x => !x.value.isEmpty)).head? = some h ∧
      applyF3 c5st = { c5st with entries := (c5st.entries ++ [renameTo "title" h]) } :=
  (filepart3_correct c5st).2.2 c5file c5dir c5sub [] (by decide) (by decide)

theorem F2_fires (st : Matches) (f d : Marker) (rest : List Marker)
    (hrev : (st.markers.filter (fun mk => mk.name == "path")).reverse = f :: d :: rest)
    (happ : filepart2ApplicableB st = true) :
    ∃ h, ((st.holes d.start d.stop).filter (fun x => !x.value.isEmpty)).head? = some h ∧
      applyF2 st = { st with entries := (st.entries ++ [renameTo "title" h]) } := by
  unfold filepart2ApplicableB at happ
  rw [hrev] at happ
  simp only [Bool.and_eq_true] at happ
  obtain ⟨⟨hep, hse⟩, hany⟩ := happ
  obtain ⟨h0, hh0⟩ := head?_filter_of_any _ _ hany
  refine ⟨h0, hh0, ?_⟩
  have hwhen : Filepart2EpisodeTitle.when st = some h0 := by
    unfold Filepart2EpisodeTitle.when
    rw [hrev]
    simp only [hep, hse, if_true]
    exact hh0
  unfold applyF2
  rw [hwhen]

theorem F2_when_none (st : Matches) (happ : filepart2ApplicableB st = false) :
    Filepart2EpisodeTitle.when st = none := by
  unfold filepart2ApplicableB at happ
  unfold Filepart2EpisodeTitle.when
  rcases hrev : (st.markers.filter (fun mk => mk.name == "path")).reverse with
    _ | ⟨f, _ | ⟨d, rest⟩⟩
  · rw [hrev]
  · rw [hrev]
  · rw [hrev] at happ ⊢
    simp only [Bool.and_eq_false_iff] at happ
    rcases happ with (hep | hse) | hany
    · simp [hep]
    · simp [hse]
    · have hh := head?_filter_of_not_any _ _ hany
      by_cases hep : (!(st.range f.start f.stop (fun m => m.name == "episodeNumber")).isEmpty) = true
      · by_cases hse : (!(st.range d.start d.stop (fun m => m.name == "season")).isEmpty) = true
        · simp only [hep, hse, if_true]
          exact hh
        · simp [hse]
      · simp [hep]

/-- C6: Filepart2EpisodeTitle appends a new title match exactly when at
least two path markers exist, the last holds an episodeNumber, the
second-to-last holds a season, and the second-to-last itself holds a hole
that is nonempty after formatting; the appended match is the first such
hole, retagged title; otherwise the collection is unchanged. -/
theorem filepart2_correct (st : Matches) :
    (filepart2ApplicableB st = false → applyF2 st = st) ∧
    (filepart2ApplicableB st = true → applyF2 st ≠ st) ∧
    (∀ filename directory rest,
      (st.markers.filter (fun mk => mk.name == "path")).reverse =
        filename :: directory :: rest →
      filepart2ApplicableB st = true →
      ∃ h, ((st.holes directory.start directory.stop).filter
          (fun x => !x.value.isEmpty)).head? = some h ∧
        applyF2 st = { st with entries := (st.entries ++ [renameTo "title" h]) }) := by
  refine ⟨?_, ?_, ?_⟩
  · intro happ
    unfold applyF2
    rw [F2_when_none st happ]
  · intro happ
    rcases hrev : (st.markers.filter (fun mk => mk.name == "path")).reverse with
      _ | ⟨f, _ | ⟨d, rest⟩⟩
    · unfold filepart2ApplicableB at happ
      rw [hrev] at happ
      simp at happ
    · unfold filepart2ApplicableB at happ
      rw [hrev] at happ
      simp at happ
    · obtain ⟨h0, hh0, happly⟩ := F2_fires st f d rest hrev happ
      rw [happly]
      intro heq
      have hent := congrArg Matches.entries heq
      simp at hent
  · intro f d rest hrev happ
    exact F2_fires st f d rest hrev happ

/-- C6 witness: on the concrete two-marker state the series-name hole of
the directory marker is appended as a title. -/
theorem filepart2_correct_witness :
    ∃ h, ((c6st.holes c6dir.start c6dir.stop).filter (fun x => !x.value.isEmpty)).head? = some h ∧
      applyF2 c6st = { c6st with entries := (c6st.entries ++ [renameTo "title" h]) } :=
  (filepart2_correct c6st).2.2 c6file c6dir [] (by decide) (by decide)

/-! ### Claim C9 -/

/-- C9: an episodeDetails span is always ignored by the positional
algorithm, so it is never absorbed into the new episode-title span; when
it is not preceded by a season span the keep/crop hook keeps it as a
separate match without cropping the title around it, and the rule leaves
it present in the output collection. -/
theorem episodeDetails_policy (st : Matches) (m : Match)
    (hname : m.name = "episodeDetails") :
    EpisodeTitleFromPosition.is_ignored m = true ∧
    (Matches.previousIn st.entries m (fun p => p.name == "season") = none →
      EpisodeTitleFromPosition.should_keep st m = (true, false) ∧
      (m ∈ st.entries → m ∈ (applyETFP st).entries)) := by
  have hig : EpisodeTitleFromPosition.is_ignored m = true := by
    unfold EpisodeTitleFromPosition.is_ignored
    simp [hname]
  refine ⟨hig, ?_⟩
  intro hprev
  have hsk : EpisodeTitleFromPosition.should_keep st m = (true, false) := by
    unfold EpisodeTitleFromPosition.should_keep
    have hcond : (m.name == "episodeDetails"
        && (Matches.previousIn st.entries m (fun p => p.name == "season")).isNone) = true := by
      rw [Bool.and_eq_true]
      refine ⟨by simp [hname], ?_⟩
      rw [hprev]
      rfl
    rw [if_pos hcond]
  refine ⟨hsk, ?_⟩
  intro hmem
  unfold applyETFP
  by_cases hg : (!(st.named "episodeTitle").isEmpty) = true
  · rw [if_pos hg]
    exact hmem
  · rw [if_neg hg]
    cases hw : titleBaseWhen st with
    | none => exact hmem
    | some hps =>
      apply List.mem_append_left
      rw [List.mem_filter]
      refine ⟨hmem, ?_⟩
      rw [hsk]
      simp

/-- C9 witness: the concrete episodeDetails span with no preceding season
is ignored, kept without cropping, and survives the rule. -/
theorem episodeDetails_policy_witness :
    EpisodeTitleFromPosition.is_ignored c9m = true ∧
      EpisodeTitleFromPosition.should_keep c9st c9m = (true, false) ∧
      c9m ∈ (applyETFP c9st).entries := by
  have h := episodeDetails_policy c9st c9m (by decide)
  exact ⟨h.1, (h.2 (by decide)).1, (h.2 (by decide)).2 (by decide)⟩

/-! ### When-phase inversion lemmas -/

theorem TTET_when_some (st : Matches) (resp : List Match)
    (h : TitleToEpisodeTitle.when st = some resp) :
    2 ≤ (st.named "title").length ∧
      resp = (st.named "title").filter
        (fun t => (Matches.previousIn st.entries t episodeNumberPred).isSome) ∧
      resp ≠ [] := by
  unfold TitleToEpisodeTitle.when at h
  by_cases hlen : (st.named "title").length < 2
  · simp only [if_pos hlen] at h
    exact absurd h (by simp)
  · by_cases hemp : ((st.named "title").filter
        (fun t => (Matches.previousIn st.entries t episodeNumberPred).isSome)).isEmpty
    · simp only [if_neg hlen, hemp, if_pos] at h
      exact absurd h (by simp)
    · simp only [if_neg hlen, hemp, Bool.false_eq_true, if_neg, not_false_iff,
        Option.some.injEq] at h
      refine ⟨by omega, h.symm, ?_⟩
      rw [← h]
      intro hcontra
      rw [← List.isEmpty_iff] at hcontra
      exact hemp hcontra

theorem cropPieces_names (st : Matches) (h : Match) :
    ∀ p ∈ cropPieces st h, p.name = "episodeTitle" := by
  intro p hp
  unfold cropPieces at hp
  rw [List.mem_filterMap] at hp
  obtain ⟨a, ha, hfa⟩ := hp
  by_cases hv : (cleanup (sliceChars st.istr a.1 a.2)).isEmpty
  · simp only [hv, if_pos] at hfa
    exact absurd hfa (by simp)
  · simp only [hv, Bool.false_eq_true, if_neg, not_false_iff, Option.some.injEq] at hfa
    rw [← hfa]

theorem titleBaseWhen_some (st : Matches) (hps : Match × List Match)
    (h : titleBaseWhen st = some hps) :
    hps.2 = cropPieces st hps.1 ∧ hps.2 ≠ [] ∧ ∀ p ∈ hps.2, p.name = "episodeTitle" := by
  obtain ⟨fp, hfp, hf⟩ := List.exists_of_findSome?_eq_some h
  cases hch : candidateHole st fp with
  | none =>
    rw [hch] at hf
    simp at hf
  | some hh =>
    rw [hch] at hf
    by_cases hemp : (cropPieces st hh).isEmpty
    · simp only [hemp, if_pos] at hf
      exact absurd hf (by simp)
    · simp only [hemp, Bool.false_eq_true, if_neg, not_false_iff, Option.some.injEq] at hf
      rw [← hf]
      refine ⟨rfl, ?_, cropPieces_names st hh⟩
      intro hcontra
      rw [← List.isEmpty_iff] at hcontra
      exact hemp hcontra

theorem ATR_when_some (st : Matches) (alt : Match)
    (h : AlternativeTitleReplace.when st = some alt) :
    alt ∈ st.entries ∧ alt.name = "alternativeTitle" := by
  unfold AlternativeTitleReplace.when at h
  by_cases hg : (!(st.named "episodeTitle").isEmpty) = true
  · rw [if_pos hg] at h
    exact absurd h (by simp)
  · rw [if_neg hg] at h
    cases hfd : firstInDoc (st.entries.filter (fun m => m.name == "alternativeTitle")) with
    | none =>
      rw [hfd] at h
      simp at h
    | some a =>
      have ha : a ∈ st.entries.filter (fun m => m.name == "alternativeTitle") :=
        firstInDoc_mem _ a hfd
      rw [List.mem_filter] at ha
      simp only [hfd] at h
      cases hcb : st.chain_before a.start (fun m => m.tags.contains "title") with
      | none =>
        rw [hcb] at h
        simp at h
      | some mt =>
        simp only [hcb] at h
        by_cases hcond : ((Matches.previousIn st.entries mt episodeAnchorPred).isSome
            || !(st.named "crc32").isEmpty) = true
        · rw [if_pos hcond] at h
          injection h with h
          rw [← h]
          exact ⟨ha.1, by simpa using ha.2⟩
        · rw [if_neg hcond] at h
          exact absurd h (by simp)

/-- C8: every rule either performs its complete mutation or leaves the
collection entirely unchanged; a retag inserts an entry with identical
start, stop and value under the new tag while the old entry is removed in
the same step, and inapplicable inputs yield the identity rather than an
error. -/
theorem rules_atomic (st : Matches) :
    (∀ n m, (renameTo n m).start = m.start ∧ (renameTo n m).stop = m.stop ∧
      (renameTo n m).value = m.value) ∧
    (applyTTET st = st ∨ ∃ E, E ≠ [] ∧ (∀ e ∈ E, e ∈ st.entries ∧ e.name = "title") ∧
      applyTTET st = { st with entries :=
        (eraseAll st.entries E ++ E.map (renameTo "episodeTitle")) }) ∧
    (applyETFP st = st ∨ ∃ hps, titleBaseWhen st = some hps ∧ hps.2 ≠ [] ∧
      (∀ p ∈ hps.2, p.name = "episodeTitle") ∧
      applyETFP st = { st with entries :=
        (st.entries.filter (fun m =>
          !(decide (hps.1.start ≤ m.start) && decide (m.stop ≤ hps.1.stop))
            || (EpisodeTitleFromPosition.should_keep st m).fst) ++ hps.2) }) ∧
    (applyATR st = st ∨ ∃ a, a ∈ st.entries ∧ a.name = "alternativeTitle" ∧
      applyATR st = { st with entries :=
        (st.entries.erase a ++ [renameTo "episodeTitle" a]) }) ∧
    (applyF3 st = st ∨ ∃ h, applyF3 st =
      { st with entries := (st.entries ++ [renameTo "title" h]) }) ∧
    (applyF2 st = st ∨ ∃ h, applyF2 st =
      { st with entries := (st.entries ++ [renameTo "title" h]) }) := by
  refine ⟨fun n m => ⟨rfl, rfl, rfl⟩, ?_, ?_, ?_, ?_, ?_⟩
  · cases hw : TitleToEpisodeTitle.when st with
    | none =>
      left
      unfold applyTTET
      rw [hw]
    | some resp =>
      right
      obtain ⟨hlen, hresp, hne⟩ := TTET_when_some st resp hw
      have halltitle : ∀ e ∈ resp, e ∈ st.entries ∧ e.name = "title" := by
        intro e he
        rw [hresp, List.mem_filter] at he
        have := named_all_title st e he.1
        exact ⟨this.2, this.1⟩
      refine ⟨resp, hne, halltitle, ?_⟩
      unfold applyTTET
      simp only [hw]
      rw [thenPhase_eq resp st.entries (fun e he => (halltitle e he).2)]
  · by_cases hg : (!(st.named "episodeTitle").isEmpty) = true
    · left
      unfold applyETFP
      rw [if_pos hg]
    · cases hw : titleBaseWhen st with
      | none =>
        left
        unfold applyETFP
        rw [if_neg hg]
        simp only [hw]
      | some hps =>
        right
        obtain ⟨hcrop, hne, hnames⟩ := titleBaseWhen_some st hps hw
        refine ⟨hps, rfl, hne, hnames, ?_⟩
        unfold applyETFP
        rw [if_neg hg]
        simp only [hw]
  · cases hw : AlternativeTitleReplace.when st with
    | none =>
      left
      unfold applyATR
      rw [hw]
    | some alt =>
      right
      obtain ⟨hmem, hname⟩ := ATR_when_some st alt hw
      refine ⟨alt, hmem, hname, ?_⟩
      unfold applyATR
      rw [hw]
  · cases hw : Filepart3EpisodeTitle.when st with
    | none =>
      left
      unfold applyF3
      rw [hw]
    | some h =>
      right
      refine ⟨h, ?_⟩
      unfold applyF3
      rw [hw]
  · cases hw : Filepart2EpisodeTitle.when st with
    | none =>
      left
      unfold applyF2
      rw [hw]
    | some h =>
      right
      refine ⟨h, ?_⟩
      unfold applyF2
      rw [hw]

/-! ### Claim C7 -/

theorem applyTTET_of_when_none (s : Matches) (h : TitleToEpisodeTitle.when s = none) :
    applyTTET s = s := by
  unfold applyTTET
  rw [h]

theorem applyTTET_idem (st : Matches) : applyTTET (applyTTET st) = applyTTET st := by
  cases hw : TitleToEpisodeTitle.when st with
  | none =>
    have h1 : applyTTET st = st := applyTTET_of_when_none st hw
    rw [h1]
    exact h1
  | some resp =>
    obtain ⟨hlen, hresp, hne⟩ := TTET_when_some st resp hw
    have halltitle : ∀ e ∈ resp, e.name = "title" := by
      intro e he
      rw [hresp, List.mem_filter] at he
      exact (named_all_title st e he.1).1
    have hthen := thenPhase_eq resp st.entries halltitle
    have h1 : applyTTET st = { st with entries :=
        (eraseAll st.entries resp ++ resp.map (renameTo "episodeTitle")) } := by
      unfold applyTTET
      simp only [hw]
      rw [hthen]
    have hcount : ∀ x ∈ resp, (eraseAll st.entries resp).count x = 0 := by
      intro x hx
      rw [eraseAll_count]
      have hname := halltitle x hx
      have h2 : resp.count x = (st.named "title").count x := by
        rw [hresp]
        apply List.count_filter
        rw [hresp, List.mem_filter] at hx
        exact hx.2
      have h3 : (st.named "title").count x = st.entries.count x := by
        unfold Matches.named Matches.namedIn
        apply List.count_filter
        simp [hname]
      omega
    have hsub := eraseAll_sublist resp st.entries
    -- the immediately preceding span test fails for every surviving title
    have hprev2 : ∀ t, t ∈ (eraseAll st.entries resp ++
          resp.map (renameTo "episodeTitle")) → t.name = "title" →
        (Matches.previousIn (eraseAll st.entries resp ++
          resp.map (renameTo "episodeTitle")) t episodeNumberPred).isSome = false := by
      intro t htmem htname
      have hterase : t ∈ eraseAll st.entries resp := by
        rcases List.mem_append.mp htmem with h2 | h2
        · exact h2
        · exfalso
          obtain ⟨e, _, hre⟩ := List.mem_map.mp h2
          rw [← hre] at htname
          simp [renameTo] at htname
      have htms : t ∈ st.entries := hsub.subset hterase
      have hprev1 : (Matches.previousIn st.entries t episodeNumberPred).isSome = false := by
        by_contra hcontra
        rw [Bool.not_eq_false] at hcontra
        have htresp : t ∈ resp := by
          rw [hresp, List.mem_filter]
          constructor
          · unfold Matches.named Matches.namedIn
            rw [List.mem_filter]
            exact ⟨htms, by simp [htname]⟩
          · exact hcontra
        have hzero := hcount t htresp
        have hpos : 0 < (eraseAll st.entries resp).count t :=
          List.count_pos_iff.mpr hterase
        omega
      by_contra hcontra
      rw [Bool.not_eq_false, previousIn_isSome_iff] at hcontra
      obtain ⟨p, hpnew, hpred, hple, hmax⟩ := hcontra
      have hpms : p ∈ st.entries := by
        rcases List.mem_append.mp hpnew with h2 | h2
        · exact hsub.subset h2
        · exfalso
          obtain ⟨e, _, hre⟩ := List.mem_map.mp h2
          rw [← hre] at hpred
          simp [renameTo, episodeNumberPred] at hpred
      have : (Matches.previousIn st.entries t episodeNumberPred).isSome = true := by
        rw [previousIn_isSome_iff]
        refine ⟨p, hpms, hpred, hple, ?_⟩
        intro q hq hqle
        by_cases hq2 : q ∈ eraseAll st.entries resp
        · exact hmax q (List.mem_append_left _ hq2) hqle
        · have hqresp : q ∈ resp := by
            have hc := eraseAll_count resp st.entries q
            have hqpos : 0 < st.entries.count q := List.count_pos_iff.mpr hq
            have hz : (eraseAll st.entries resp).count q = 0 := by
              by_contra hnz
              exact hq2 (List.count_pos_iff.mp (Nat.pos_of_ne_zero hnz))
            have : 0 < resp.count q := by omega
            exact List.count_pos_iff.mp this
          have hrq : renameTo "episodeTitle" q ∈ resp.map (renameTo "episodeTitle") :=
            List.mem_map_of_mem _ hqresp
          have := hmax (renameTo "episodeTitle" q) (List.mem_append_right _ hrq)
            (by simpa [renameTo] using hqle)
          simpa [renameTo] using this
      rw [hprev1] at this
      cases this
    have hwhen2 : TitleToEpisodeTitle.when (applyTTET st) = none := by
      rw [h1]
      unfold TitleToEpisodeTitle.when
      by_cases hlen2 : (({ st with entries :=
          (eraseAll st.entries resp ++ resp.map (renameTo "episodeTitle")) } :
            Matches).named "title").length < 2
      · rw [if_pos hlen2]
      · rw [if_neg hlen2]
        have hfilt : (({ st with entries :=
            (eraseAll st.entries resp ++ resp.map (renameTo "episodeTitle")) } :
              Matches).named "title").filter
            (fun t => (Matches.previousIn (eraseAll st.entries resp ++
              resp.map (renameTo "episodeTitle")) t episodeNumberPred).isSome) = [] := by
          rw [List.filter_eq_nil_iff]
          intro t ht
          have hm := named_all_title _ t ht
          rw [hprev2 t hm.2 hm.1]
          simp
        simp only [hfilt]
        rfl
    exact applyTTET_of_when_none _ hwhen2

theorem applyETFP_idem (st : Matches) : applyETFP (applyETFP st) = applyETFP st := by
  by_cases hg : (!(st.named "episodeTitle").isEmpty) = true
  · have h1 : applyETFP st = st := by
      unfold applyETFP
      rw [if_pos hg]
    rw [h1]
    exact h1
  · cases hw : titleBaseWhen st with
    | none =>
      have h1 : applyETFP st = st := by
        unfold applyETFP
        rw [if_neg hg]
        simp only [hw]
      rw [h1]
      exact h1
    | some hps =>
      obtain ⟨hcrop, hne, hnames⟩ := titleBaseWhen_some st hps hw
      have h1 : applyETFP st = { st with entries :=
          (st.entries.filter (fun m =>
            !(decide (hps.1.start ≤ m.start) && decide (m.stop ≤ hps.1.stop))
              || (EpisodeTitleFromPosition.should_keep st m).fst) ++ hps.2) } := by
        unfold applyETFP
        rw [if_neg hg]
        simp only [hw]
      obtain ⟨p0, hp0⟩ := List.exists_mem_of_ne_nil hps.2 hne
      have hnamed : (applyETFP st).named "episodeTitle" ≠ [] := by
        apply List.ne_nil_of_mem (a := p0)
        unfold Matches.named Matches.namedIn
        rw [List.mem_filter]
        constructor
        · rw [h1]
          exact List.mem_append_right _ hp0
        · simp [hnames p0 hp0]
      exact applyETFP_of_episodeTitle _ hnamed

theorem applyATR_idem (st : Matches) : applyATR (applyATR st) = applyATR st := by
  cases hw : AlternativeTitleReplace.when st with
  | none =>
    have h1 : applyATR st = st := by
      unfold applyATR
      rw [hw]
    rw [h1]
    exact h1
  | some alt =>
    have h1 : applyATR st = { st with entries :=
        (st.entries.erase alt ++ [renameTo "episodeTitle" alt]) } := by
      unfold applyATR
      rw [hw]
    have hnamed : (applyATR st).named "episodeTitle" ≠ [] := by
      apply List.ne_nil_of_mem (a := renameTo "episodeTitle" alt)
      unfold Matches.named Matches.namedIn
      rw [List.mem_filter]
      constructor
      · rw [h1]
        exact List.mem_append_right _ (List.mem_singleton_self _)
      · simp [renameTo]
    exact applyATR_of_episodeTitle _ hnamed

/-- C7 counterexample: Filepart3EpisodeTitle is not idempotent; on this
state its second run appends a second title carved from the hole left
next to the one already filled by the first run. -/
theorem filepart3_not_idempotent :
    applyF3 (applyF3 c7st) ≠ applyF3 c7st := by
  decide

/-- C7 amended: the three episode-title chain rules are idempotent; a
second run of TitleToEpisodeTitle finds no title following an episode
number any more, and a second run of EpisodeTitleFromPosition or
AlternativeTitleReplace is stopped by its episodeTitle guard.  The two
Filepart rules carry no such guard and need not be idempotent. -/
theorem chainRules_idempotent (st : Matches) :
    applyTTET (applyTTET st) = applyTTET st ∧
      applyETFP (applyETFP st) = applyETFP st ∧
      applyATR (applyATR st) = applyATR st :=
  ⟨applyTTET_idem st, applyETFP_idem st, applyATR_idem st⟩
